import Mathlib

/-
Verification of the inih_rust INI parser (src/src/parser.rs, src/src/reader.rs).

Strings are modelled as lists of characters; positions returned by the
scanning functions are character positions, which coincide with the byte
positions used by the Rust code on ASCII input (every concrete input used
below is ASCII). Rust i64 and u64 values are modelled as Int and Nat with
explicit range checks where the Rust parse functions enforce them.
-/

namespace Inih

/-- Character-list model of Rust string slices. -/
abbrev Str := List Char

/-- Converts a Lean string literal to the character-list model. -/
def str (s : String) : Str := s.data

/-- Models str::trim_start (leading whitespace removal). -/
def trimStart (s : Str) : Str := s.dropWhile Char.isWhitespace

/-- Models str::trim_end (trailing whitespace removal). -/
def trimEnd (s : Str) : Str := (s.reverse.dropWhile Char.isWhitespace).reverse

/-- Models str::trim from the Rust standard library. -/
def trim (s : Str) : Str := trimEnd (trimStart s)

/-- Models ParseOptions from src/src/parser.rs. -/
structure ParseOptions where
  allow_multiline : Bool
  allow_bom : Bool
  allow_inline_comments : Bool
  inline_comment_prefixes : Str
  start_comment_prefixes : Str
  stop_on_first_error : Bool
  call_handler_on_new_section : Bool
  allow_no_value : Bool
  max_line : Nat
deriving DecidableEq

/-- Models the Default instance for ParseOptions. -/
def ParseOptions.default : ParseOptions where
  allow_multiline := false
  allow_bom := true
  allow_inline_comments := true
  inline_comment_prefixes := [';']
  start_comment_prefixes := [';', '#']
  stop_on_first_error := false
  call_handler_on_new_section := false
  allow_no_value := false
  max_line := 200

/-- Models IniParseError from src/src/error.rs. -/
inductive IniParseError where
  | FileOpen : String → IniParseError
  | ParseError : Nat → String → IniParseError
  | MemoryError : IniParseError
  | HandlerError : String → IniParseError
deriving DecidableEq

/-- Models the IniHandler trait: the handler takes its own state and the
(section, name, value) triple, and returns the updated state together with
an optional rejection message (None models Ok, Some models Err). -/
def Handler (σ : Type) : Type := σ → Str → Str → Str → σ × Option String

/-- Recursion core of find_char_or_comment: scans the remaining characters
carrying the absolute position of the head and whether the previous
character was whitespace (was_space in the Rust code). -/
def findAux (target : Char) (prefixes : Str) (allow : Bool) :
    Str → Nat → Bool → Option Nat
  | [], _, _ => none
  | c :: rest, i, ws =>
    if c = target then some i
    else if allow && ws && prefixes.contains c then some i
    else findAux target prefixes allow rest (i + 1) c.isWhitespace

/-- Models find_char_or_comment from src/src/parser.rs. -/
def find_char_or_comment (s : Str) (target : Char) (prefixes : Str)
    (allow_inline_comments : Bool) : Option Nat :=
  findAux target prefixes allow_inline_comments s 0 false

/-- Recursion core of remove_inline_comment: scans the remaining characters
of s (carrying s itself for the final slicing and trimming). -/
def removeAux (prefixes : Str) (orig : Str) : Str → Nat → Bool → Str
  | [], _, _ => trim orig
  | c :: rest, i, ws =>
    if ws && prefixes.contains c then trim (orig.take i)
    else removeAux prefixes orig rest (i + 1) c.isWhitespace

/-- Models remove_inline_comment from src/src/parser.rs. -/
def remove_inline_comment (s : Str) (prefixes : Str) : Str :=
  removeAux prefixes s s 0 false

/-- Models the parser state threaded by reference through parse_line:
the current section, the previous key name, and the handler state
(sec stands for the Rust variable named section, a Lean keyword). -/
structure ParseState (σ : Type) where
  sec : Str
  prev_name : Str
  hstate : σ
deriving DecidableEq

/-- Models parse_line from src/src/parser.rs. Returns the state after the
line (including handler mutations) and the optional error. -/
def parse_line (line : Str) (st : ParseState σ) (handler : Handler σ)
    (options : ParseOptions) (line_number : Nat) :
    ParseState σ × Option IniParseError :=
  let line :=
    if line_number = 1 && options.allow_bom && line.head? = some '\uFEFF'
    then line.drop 1 else line
  let trimmed := trim line
  if trimmed.isEmpty then (st, none)
  else if options.start_comment_prefixes.any (fun c => trimmed.head? = some c) then
    (st, none)
  else if options.allow_multiline && !st.prev_name.isEmpty && !trimmed.isEmpty
      && (match line.head? with | some c => c.isWhitespace | none => false) then
    let value :=
      if options.allow_inline_comments then
        let comment_removed := remove_inline_comment trimmed options.inline_comment_prefixes
        let indent_len := line.length - (trimStart line).length
        line.take indent_len ++ comment_removed
      else line
    let h := handler st.hstate st.sec st.prev_name value
    ({ st with hstate := h.1 }, h.2.map IniParseError.HandlerError)
  else if trimmed.head? = some '[' then
    match find_char_or_comment trimmed ']' options.inline_comment_prefixes
        options.allow_inline_comments with
    | some end_pos =>
      if end_pos > 1 then
        let section_name := (trimmed.drop 1).take (end_pos - 1)
        let st' : ParseState σ := { st with sec := section_name, prev_name := [] }
        let h := handler st'.hstate st'.sec [] []
        ({ st' with hstate := h.1 }, h.2.map IniParseError.HandlerError)
      else
        (st, some (IniParseError.ParseError line_number "Missing ']' in section header"))
    | none =>
      (st, some (IniParseError.ParseError line_number "Missing ']' in section header"))
  else
    let eq_pos := find_char_or_comment trimmed '=' options.inline_comment_prefixes
        options.allow_inline_comments
    let colon_pos := find_char_or_comment trimmed ':' options.inline_comment_prefixes
        options.allow_inline_comments
    let sep_pos :=
      match eq_pos, colon_pos with
      | some e, some c => some (min e c)
      | some e, none => some e
      | none, some c => some c
      | none, none => none
    match sep_pos with
    | some sp =>
      let name := trim (trimmed.take sp)
      let value :=
        if sp + 1 < trimmed.length then
          let value_part := trimmed.drop (sp + 1)
          if options.allow_inline_comments then
            remove_inline_comment value_part options.inline_comment_prefixes
          else trim value_part
        else []
      let st' : ParseState σ := { st with prev_name := name }
      let h := handler st'.hstate st'.sec name value
      ({ st' with hstate := h.1 }, h.2.map IniParseError.HandlerError)
    | none =>
      if options.allow_no_value && !trimmed.isEmpty then
        let name :=
          if options.allow_inline_comments then
            remove_inline_comment trimmed options.inline_comment_prefixes
          else trimmed
        let st' : ParseState σ := { st with prev_name := name }
        let h := handler st'.hstate st'.sec name []
        ({ st' with hstate := h.1 }, h.2.map IniParseError.HandlerError)
      else if !trimmed.isEmpty then
        if options.stop_on_first_error then
          (st, some (IniParseError.ParseError line_number "Invalid line format"))
        else (st, none)
      else (st, none)

/-- Models the line loop of ini_parse_lines_with_options: line_number is the
number of lines already consumed (so the next line is line_number + 1) and
first_error is the remembered first error. -/
def ini_parse_lines_aux (handler : Handler σ) (options : ParseOptions) :
    List Str → ParseState σ → Nat → Option IniParseError →
    ParseState σ × Except IniParseError Unit
  | [], st, _, first_error =>
    (st, match first_error with
         | some e => Except.error e
         | none => Except.ok ())
  | line :: rest, st, line_number, first_error =>
    if line.length > options.max_line then
      if options.stop_on_first_error then
        (st, Except.error (IniParseError.ParseError (line_number + 1) "Line too long"))
      else
        ini_parse_lines_aux handler options rest st (line_number + 1)
          (match first_error with
           | some e => some e
           | none => some (IniParseError.ParseError (line_number + 1) "Line too long"))
    else
      let p := parse_line line st handler options (line_number + 1)
      match p.2 with
      | none => ini_parse_lines_aux handler options rest p.1 (line_number + 1) first_error
      | some e =>
        if options.stop_on_first_error then (p.1, Except.error e)
        else
          ini_parse_lines_aux handler options rest p.1 (line_number + 1)
            (match first_error with
             | some e2 => some e2
             | none => some e)

/-- Models ini_parse_lines_with_options from src/src/parser.rs, returning
the final state (handler mutations persist through a mutable borrow in
Rust) alongside the result. -/
def ini_parse_lines_with_options (lines : List Str) (st0 : σ)
    (handler : Handler σ) (options : ParseOptions) :
    ParseState σ × Except IniParseError Unit :=
  ini_parse_lines_aux handler options lines ⟨[], [], st0⟩ 0 none

/-- Strips one trailing carriage return, as str::lines does on
newline-terminated fragments. -/
def stripCR (s : Str) : Str :=
  if s.getLast? = some '\r' then s.dropLast else s

/-- Recursion core of rustLines: splits at newline characters, stripping a
trailing carriage return only from newline-terminated fragments. -/
def linesAux : Str → Str → List Str
  | [], acc => [acc.reverse]
  | '\n' :: rest, acc => stripCR acc.reverse :: linesAux rest []
  | c :: rest, acc => linesAux rest (c :: acc)

/-- Models str::lines as used by ini_parse_string_with_options: split at
line feeds, drop a final empty fragment produced by a trailing newline. -/
def rustLines (s : Str) : List Str :=
  if s.isEmpty then []
  else
    let parts := linesAux s []
    if parts.getLast? = some [] then parts.dropLast else parts

/-- Digit value of a character exactly as Rust char::to_digit computes it
(decimal digits, then lowercase and uppercase letters). -/
def digitVal (c : Char) : Option Nat :=
  if '0' ≤ c ∧ c ≤ '9' then some (c.toNat - '0'.toNat)
  else if 'a' ≤ c ∧ c ≤ 'z' then some (c.toNat - 'a'.toNat + 10)
  else if 'A' ≤ c ∧ c ≤ 'Z' then some (c.toNat - 'A'.toNat + 10)
  else none

/-- Digit value accepted in the given radix (None when out of range). -/
def digitInRadix (radix : Nat) (c : Char) : Option Nat :=
  match digitVal c with
  | some d => if d < radix then some d else none
  | none => none

/-- Accumulating digit-sequence parse; fails on any invalid digit. -/
def parseDigitsAux (radix : Nat) : Str → Nat → Option Nat
  | [], acc => some acc
  | c :: rest, acc =>
    match digitInRadix radix c with
    | some d => parseDigitsAux radix rest (acc * radix + d)
    | none => none

/-- Parses a nonempty digit sequence in the given radix. -/
def parseDigits (radix : Nat) (s : Str) : Option Nat :=
  if s.isEmpty then none else parseDigitsAux radix s 0

/-- Largest i64 value. -/
def i64Max : Int := 2 ^ 63 - 1

/-- Models i64::from_str_radix (and str::parse::<i64> at radix 10):
optional sign, nonempty digit sequence, i64 range check. -/
def parse_i64_radix (radix : Nat) (s : Str) : Option Int :=
  match s with
  | '+' :: rest =>
    (parseDigits radix rest).bind fun n =>
      if (n : Int) ≤ i64Max then some (n : Int) else none
  | '-' :: rest =>
    (parseDigits radix rest).bind fun n =>
      if (n : Int) ≤ 2 ^ 63 then some (-(n : Int)) else none
  | _ =>
    (parseDigits radix s).bind fun n =>
      if (n : Int) ≤ i64Max then some (n : Int) else none

/-- Models str::parse::<u64>: optional plus sign, nonempty decimal digit
sequence, u64 range check. A minus sign is not a decimal digit, so it
fails in the catch-all case exactly as in Rust. -/
def parse_u64 (s : Str) : Option Nat :=
  match s with
  | '+' :: rest =>
    (parseDigits 10 rest).bind fun n => if n < 2 ^ 64 then some n else none
  | _ =>
    (parseDigits 10 s).bind fun n => if n < 2 ^ 64 then some n else none

/-- First-match association-list lookup, modelling HashMap::get. -/
def lookupVal : List (Str × Str) → Str → Option Str
  | [], _ => none
  | (k, v) :: rest, key => if k = key then some v else lookupVal rest key

/-- In-place update of the entry for a key, modelling mutation through
HashMap::get_mut. -/
def setVal : List (Str × Str) → Str → Str → List (Str × Str)
  | [], _, _ => []
  | (k, v) :: rest, key, nv =>
    if k = key then (k, nv) :: rest else (k, v) :: setVal rest key nv

/-- Set insertion modelling HashSet::insert (no duplicates). -/
def insertSet (l : List Str) (s : Str) : List Str :=
  if l.contains s then l else l ++ [s]

/-- Models IniReader::make_key: lowercased section and name joined by an
equals sign (Char.toLower agrees with Rust str::to_lowercase on ASCII). -/
def make_key (sec name : Str) : Str :=
  sec.map Char.toLower ++ '=' :: name.map Char.toLower

/-- Models the IniReader struct from src/src/reader.rs; the HashMap of
values is modelled as an association list and the HashSet of sections as a
duplicate-free list. -/
structure IniReader where
  values : List (Str × Str)
  sections : List Str
  error : Option IniParseError
deriving DecidableEq

/-- Models IniHandler::handle for IniReader (it never rejects): registers
the section verbatim when non-empty; for a named event, appends to an
existing value with a newline separator, otherwise inserts. -/
def IniReader.handle (r : IniReader) (sec name value : Str) : IniReader :=
  let r := if !sec.isEmpty then { r with sections := insertSet r.sections sec } else r
  if name.isEmpty then r
  else
    let key := make_key sec name
    match lookupVal r.values key with
    | some existing_value =>
      { r with values := setVal r.values key (existing_value ++ '\n' :: value) }
    | none => { r with values := r.values ++ [(key, value)] }

/-- The IniReader packaged as a Handler (always accepting). -/
def iniHandler : Handler IniReader := fun r s n v => (r.handle s n v, none)

/-- Models IniReader::get. -/
def IniReader.get (r : IniReader) (sec name default_value : Str) : Str :=
  (lookupVal r.values (make_key sec name)).getD default_value

/-- Models IniReader::get_string (default also replaces an empty value). -/
def IniReader.get_string (r : IniReader) (sec name default_value : Str) : Str :=
  let value := r.get sec name []
  if value.isEmpty then default_value else value

/-- Models IniReader::get_integer: a 0x or 0X prefixed value is parsed as
hexadecimal after the prefix; if that fails or there is no such prefix the
whole value is parsed as signed decimal, with the default on failure. -/
def IniReader.get_integer (r : IniReader) (sec name : Str) (default_value : Int) : Int :=
  let value := r.get sec name []
  if ['0', 'x'].isPrefixOf value || ['0', 'X'].isPrefixOf value then
    match parse_i64_radix 16 (value.drop 2) with
    | some hex_value => hex_value
    | none => (parse_i64_radix 10 value).getD default_value
  else (parse_i64_radix 10 value).getD default_value

/-- Models IniReader::get_integer64 (delegates to get_integer). -/
def IniReader.get_integer64 (r : IniReader) (sec name : Str) (default_value : Int) : Int :=
  r.get_integer sec name default_value

/-- Models IniReader::get_unsigned: plain decimal u64 parse, default on
failure; u64 values are modelled as Nat. -/
def IniReader.get_unsigned (r : IniReader) (sec name : Str) (default_value : Nat) : Nat :=
  (parse_u64 (r.get sec name [])).getD default_value

/-- Models IniReader::get_unsigned64 (delegates to get_unsigned). -/
def IniReader.get_unsigned64 (r : IniReader) (sec name : Str) (default_value : Nat) : Nat :=
  r.get_unsigned sec name default_value

/-- Lexicographic comparison on character lists; agrees with the byte
order Rust uses to sort Strings (UTF-8 preserves code point order). -/
def strLt : Str → Str → Bool
  | [], [] => false
  | [], _ :: _ => true
  | _ :: _, [] => false
  | a :: as, b :: bs => if a < b then true else if b < a then false else strLt as bs

/-- Sorted insertion for sortStrs. -/
def insSorted (x : Str) : List Str → List Str
  | [] => [x]
  | y :: ys => if strLt x y then x :: y :: ys else y :: insSorted x ys

/-- Insertion sort on character lists, modelling Vec::sort on Strings. -/
def sortStrs (l : List Str) : List Str := l.foldr insSorted []

/-- Models IniReader::sections (the method): all registered section names,
sorted. -/
def IniReader.sectionNames (r : IniReader) : List Str := sortStrs r.sections

/-- Models IniReader::has_section: exact membership in the section set. -/
def IniReader.has_section (r : IniReader) (sec : Str) : Bool :=
  r.sections.contains sec

/-- Models IniReader::has_value. -/
def IniReader.has_value (r : IniReader) (sec name : Str) : Bool :=
  (lookupVal r.values (make_key sec name)).isSome

/-- Models IniReader::from_string_with_options: parses the lines of the
string into a fresh reader, recording the error in the reader on failure.
Returns the reader together with the parse result. -/
def from_string_with_options (data : Str) (options : ParseOptions) :
    IniReader × Except IniParseError Unit :=
  let init : IniReader := ⟨[], [], none⟩
  let res := ini_parse_lines_with_options (rustLines data) init iniHandler options
  match res.2 with
  | Except.ok () => (res.1.hstate, Except.ok ())
  | Except.error e => ({ res.1.hstate with error := some e }, Except.error e)

/-- Models IniReader::from_string (default options). -/
def from_string (data : Str) : IniReader × Except IniParseError Unit :=
  from_string_with_options data ParseOptions.default

/-- Handler that records every event it receives, in order (used to
observe the event stream the driver delivers). -/
def recHandler : Handler (List (Str × Str × Str)) :=
  fun l s n v => (l ++ [(s, n, v)], none)

/-- Spec-side reference model of the driver loop: processes every line
unconditionally (never aborting), collecting each line's optional error
outcome in order. Follows the spec's description of the lenient error
policy, for comparison with ini_parse_lines_aux. -/
def processAll (handler : Handler σ) (options : ParseOptions) :
    List Str → ParseState σ → Nat → ParseState σ × List (Option IniParseError)
  | [], st, _ => (st, [])
  | line :: rest, st, line_number =>
    if line.length > options.max_line then
      let r := processAll handler options rest st (line_number + 1)
      (r.1, some (IniParseError.ParseError (line_number + 1) "Line too long") :: r.2)
    else
      let p := parse_line line st handler options (line_number + 1)
      let r := processAll handler options rest p.1 (line_number + 1)
      (r.1, p.2 :: r.2)

/-- Fresh reader state, as constructed by IniReader::from_string. -/
def iniReader0 : IniReader := ⟨[], [], none⟩

/-- First error in a list of per-line outcomes. -/
def firstSome : List (Option IniParseError) → Option IniParseError
  | [] => none
  | some e :: _ => some e
  | none :: rest => firstSome rest

/-- Position and value of the first error in a list of per-line
outcomes. -/
def firstErrAt : List (Option IniParseError) → Option (Nat × IniParseError)
  | [] => none
  | some e :: _ => some (0, e)
  | none :: rest =>
    match firstErrAt rest with
    | some p => some (p.1 + 1, p.2)
    | none => none

theorem lookupVal_setVal (l : List (Str × Str)) (key nv v : Str)
    (h : lookupVal l key = some v) :
    lookupVal (setVal l key nv) key = some nv := by
  induction l with
  | nil => simp [lookupVal] at h
  | cons kv rest ih =>
    obtain ⟨k, w⟩ := kv
    by_cases hk : k = key
    · simp [lookupVal, setVal, hk]
    · simp only [lookupVal, setVal, hk, if_false] at h ⊢
      exact ih h

/-- C5: two declarations of the same key in the same section concatenate
with a single newline in declaration order (handle appends rather than
overwrites), and concretely the input consisting of the three lines [s],
a=1, a=2 gives get_string s a of the empty default equal to 1, newline, 2. -/
theorem c5_duplicate_keys_append :
    (∀ (r : IniReader) (s n v1 v2 : Str), n ≠ [] →
      lookupVal r.values (make_key s n) = some v1 →
      lookupVal ((r.handle s n v2).values) (make_key s n) = some (v1 ++ '\n' :: v2)) ∧
    (from_string (str "[s]\na=1\na=2\n")).1.get_string (str "s") (str "a") [] = str "1\n2" := by
  constructor
  · intro r s n v1 v2 hn hv
    have hne : n.isEmpty = false := by cases n with
      | nil => exact absurd rfl hn
      | cons c cs => rfl
    have hval : ((if !s.isEmpty then { r with sections := insertSet r.sections s } else r) :
        IniReader).values = r.values := by
      by_cases hs : s.isEmpty <;> simp [hs]
    rw [IniReader.handle, hne]
    simp only [Bool.false_eq_true, if_false, hval, hv]
    exact lookupVal_setVal r.values (make_key s n) _ v1 hv
  · rfl

/-- Witness for c5_duplicate_keys_append: the append law applied to the
concrete reader that already stores 1 under key s, a. -/
theorem c5_witness :
    lookupVal (((from_string (str "[s]\na=1")).1.handle (str "s") (str "a")
      (str "2")).values) (make_key (str "s") (str "a")) = some (str "1\n2") :=
  c5_duplicate_keys_append.1 (from_string (str "[s]\na=1")).1 (str "s") (str "a")
    (str "1") (str "2") (by decide) (by rfl)

/-- C6: get_string is case-insensitive in section and key: any two spellings
with the same lowercasing give the same result, for every reader state. -/
theorem c6_get_string_case_insensitive (r : IniReader) (s1 n1 s2 n2 d : Str)
    (hs : s1.map Char.toLower = s2.map Char.toLower)
    (hn : n1.map Char.toLower = n2.map Char.toLower) :
    r.get_string s1 n1 d = r.get_string s2 n2 d := by
  have hk : make_key s1 n1 = make_key s2 n2 := by
    rw [make_key, make_key, hs, hn]
  rw [IniReader.get_string, IniReader.get_string, IniReader.get, IniReader.get, hk]

/-- Witness for c6_get_string_case_insensitive: on a source declaring
section Section and key Key, the three spellings agree. -/
theorem c6_witness :
    (from_string (str "[Section]\nKey=42")).1.get_string (str "Section") (str "Key") [] =
      (from_string (str "[Section]\nKey=42")).1.get_string (str "section") (str "key") [] ∧
    (from_string (str "[Section]\nKey=42")).1.get_string (str "section") (str "key") [] =
      (from_string (str "[Section]\nKey=42")).1.get_string (str "SECTION") (str "KEY") [] :=
  ⟨c6_get_string_case_insensitive _ _ _ _ _ _ (by decide) (by decide),
   c6_get_string_case_insensitive _ _ _ _ _ _ (by decide) (by decide)⟩

/-- C7: get_integer parses a 0x or 0X prefixed stored value as
hexadecimal with precedence over decimal (concretely 0x1A yields 26),
parses any other value as signed decimal, and returns the default when
both parses fail. -/
theorem c7_get_integer_hex (r : IniReader) (s n : Str) (d : Int) :
    (r.get s n [] = str "0x1A" → r.get_integer s n d = 26) ∧
    (∀ v h, r.get s n [] = v →
      (['0', 'x'].isPrefixOf v ∨ ['0', 'X'].isPrefixOf v) →
      parse_i64_radix 16 (v.drop 2) = some h → r.get_integer s n d = h) ∧
    (∀ v, r.get s n [] = v →
      ¬(['0', 'x'].isPrefixOf v ∨ ['0', 'X'].isPrefixOf v) →
      r.get_integer s n d = (parse_i64_radix 10 v).getD d) ∧
    (∀ v, r.get s n [] = v → parse_i64_radix 16 (v.drop 2) = none →
      parse_i64_radix 10 v = none → r.get_integer s n d = d) := by
  refine ⟨?_, ?_, ?_, ?_⟩
  · intro hv
    rw [IniReader.get_integer]
    simp only [hv]
    rw [if_pos (by decide)]
    have hx : parse_i64_radix 16 ((str "0x1A").drop 2) = some 26 := by decide
    rw [hx]
  · intro v h hv hp hx
    rw [IniReader.get_integer]
    simp only [hv]
    have hb : (['0', 'x'].isPrefixOf v || ['0', 'X'].isPrefixOf v) = true := by
      rcases hp with hp | hp <;> simp [hp]
    rw [if_pos hb, hx]
  · intro v hv hp
    rw [IniReader.get_integer]
    simp only [hv]
    have hb : ¬((['0', 'x'].isPrefixOf v || ['0', 'X'].isPrefixOf v) = true) := by
      simp only [Bool.or_eq_true]
      exact hp
    rw [if_neg hb]
  · intro v hv hx hd
    rw [IniReader.get_integer]
    simp only [hv]
    by_cases hb : (['0', 'x'].isPrefixOf v || ['0', 'X'].isPrefixOf v) = true
    · rw [if_pos hb, hx, hd]
      rfl
    · rw [if_neg hb, hd]
      rfl

/-- Witness for c7_get_integer_hex: a reader built from the line k=0x1A
stores 0x1A under key k, and get_integer returns 26 on it. -/
theorem c7_witness :
    (from_string (str "k=0x1A")).1.get_integer (str "") (str "k") 0 = 26 :=
  (c7_get_integer_hex (from_string (str "k=0x1A")).1 (str "") (str "k") 0).1 (by rfl)

/-- Auxiliary: a decimal parse of a value that starts with the two
characters 0 and then x or X always fails (x is not a decimal digit). -/
theorem parse_u64_0x_eq_none (c : Char) (t : Str) (hc : c = 'x' ∨ c = 'X') :
    parse_u64 ('0' :: c :: t) = none := by
  rcases hc with rfl | rfl <;> rfl

/-- C10: get_unsigned and get_unsigned64 perform no hexadecimal
recognition: a stored value beginning with 0x or 0X fails the decimal
parse and the caller-supplied default is returned. -/
theorem c10_get_unsigned_no_hex (r : IniReader) (s n : Str) (d : Nat)
    (h : ['0', 'x'].isPrefixOf (r.get s n []) ∨ ['0', 'X'].isPrefixOf (r.get s n [])) :
    r.get_unsigned s n d = d ∧ r.get_unsigned64 s n d = d := by
  have hn : parse_u64 (r.get s n []) = none := by
    rcases h with h | h
    · obtain ⟨t, ht⟩ := List.isPrefixOf_iff_prefix.mp h
      rw [← ht]
      exact parse_u64_0x_eq_none 'x' t (Or.inl rfl)
    · obtain ⟨t, ht⟩ := List.isPrefixOf_iff_prefix.mp h
      rw [← ht]
      exact parse_u64_0x_eq_none 'X' t (Or.inr rfl)
  constructor
  · rw [IniReader.get_unsigned, hn]; rfl
  · rw [IniReader.get_unsigned64, IniReader.get_unsigned, hn]; rfl

/-- Witness for c10_get_unsigned_no_hex: on the reader built from k=0x1A,
get_unsigned returns the default 7 while get_integer returns 26 on the
same stored value. -/
theorem c10_witness :
    (from_string (str "k=0x1A")).1.get_unsigned (str "") (str "k") 7 = 7 ∧
    (from_string (str "k=0x1A")).1.get_integer (str "") (str "k") 0 = 26 :=
  ⟨(c10_get_unsigned_no_hex (from_string (str "k=0x1A")).1 (str "") (str "k") 7
      (Or.inl (by rfl))).1, by rfl⟩

/-- C9: a line longer than max_line yields the ParseError with message
Line too long carrying the 1-based line number, with the parser state
unchanged (the classifier is never invoked, so the line contributes no
event); with stop_on_first_error the parse aborts immediately with that
error, otherwise it is recorded as first error and the loop continues. -/
theorem c9_line_too_long (handler : Handler σ) (options : ParseOptions) (l : Str)
    (rest : List Str) (st : ParseState σ) (ln : Nat) (fe : Option IniParseError)
    (h : l.length > options.max_line) :
    (options.stop_on_first_error = true →
      ini_parse_lines_aux handler options (l :: rest) st ln fe
        = (st, Except.error (IniParseError.ParseError (ln + 1) "Line too long"))) ∧
    (options.stop_on_first_error = false →
      ini_parse_lines_aux handler options (l :: rest) st ln fe
        = ini_parse_lines_aux handler options rest st (ln + 1)
            (match fe with
             | some e => some e
             | none => some (IniParseError.ParseError (ln + 1) "Line too long"))) := by
  constructor <;> intro hstop <;> rw [ini_parse_lines_aux.eq_def] <;> simp [h, hstop]

/-- Witness for c9_line_too_long: a single line of 201 characters under the
default options (max_line 200, lenient) makes the whole parse return the
line-too-long error at line 1 while the state stays untouched. -/
theorem c9_witness :
    ini_parse_lines_aux iniHandler ParseOptions.default [List.replicate 201 'a']
      ⟨[], [], iniReader0⟩ 0 none
      = (⟨[], [], iniReader0⟩,
         Except.error (IniParseError.ParseError 1 "Line too long")) := by
  have hlen : (List.replicate 201 'a').length > ParseOptions.default.max_line := by
    rw [List.length_replicate]
    decide
  have h2 := (c9_line_too_long iniHandler ParseOptions.default (List.replicate 201 'a')
    [] ⟨[], [], iniReader0⟩ 0 none hlen).2 rfl
  rw [h2]
  rfl

/-- C1, code behavior at the failing input: on the line consisting of
key, space, semicolon, space, comment under the default options, the
classifier emits a KeyValueEvent from the separator path with name key and
value comment, because find_char_or_comment returns the position of the
whitespace-preceded comment character and parse_line uses that position as
the separator position without checking which character was found. -/
theorem c1_comment_before_separator_eval :
    parse_line (str "key ; comment") ⟨[], [], ([] : List (Str × Str × Str))⟩ recHandler
      ParseOptions.default 1
      = (⟨[], str "key", [([], str "key", str "comment")]⟩, none) := by rfl

/-- C2, code behavior at the failing input: a line starting with an opening
bracket and containing no closing bracket at all, but containing a
whitespace-preceded comment character, is accepted as a section header
(section name running to the comment character) instead of producing the
missing-closing-bracket ParseError. -/
theorem c2_unclosed_bracket_eval :
    (from_string (str "[abc ;x")).2 = Except.ok () ∧
    (from_string (str "[abc ;x")).1.sections = [str "abc "] ∧
    (from_string (str "[abc ;x")).1.error = none :=
  ⟨rfl, rfl, rfl⟩

/-- C3, counterexample: the source declares section Sect, yet has_section
with the lowercased spelling sect returns false and sectionNames returns
the original-case name Sect, so the section set is not lowercased and
has_section is not case-insensitive. -/
theorem c3_counterexample :
    (from_string (str "[Sect]\nk=v")).1.has_section (str "sect") = false ∧
    (from_string (str "[Sect]\nk=v")).1.sectionNames = [str "Sect"] :=
  ⟨rfl, rfl⟩

theorem findAux_append_target (target : Char) (prefixes : Str) :
    ∀ (ss rest : Str) (i : Nat) (ws : Bool), target ∉ ss →
      (∀ c ∈ ss, prefixes.contains c = false) →
      findAux target prefixes true (ss ++ target :: rest) i ws = some (i + ss.length) := by
  intro ss
  induction ss with
  | nil => intro rest i ws _ _; simp [findAux]
  | cons c cs ih =>
    intro rest i ws hn hp
    have hc : ¬(c = target) := fun h => hn (by rw [h]; exact List.mem_cons_self _ _)
    have hcp : prefixes.contains c = false := hp c (List.mem_cons_self c cs)
    rw [List.cons_append, findAux, if_neg hc, hcp]
    simp only [Bool.and_false, Bool.false_eq_true, if_false]
    rw [ih rest (i + 1) c.isWhitespace (fun h => hn (List.mem_cons_of_mem c h))
      (fun x hx => hp x (List.mem_cons_of_mem c hx))]
    congr 1
    simp only [List.length_cons]
    omega

theorem trim_bracket (ss : Str) : trim ('[' :: (ss ++ [']'])) = '[' :: (ss ++ [']']) := by
  have h1 : Char.isWhitespace '[' = false := by decide
  have h2 : Char.isWhitespace ']' = false := by decide
  rw [trim, trimStart, List.dropWhile_cons]
  rw [h1]
  simp only [Bool.false_eq_true, if_false]
  rw [trimEnd]
  have hr : ('[' :: (ss ++ [']'])).reverse = ']' :: (ss.reverse ++ ['[']) := by
    simp [List.reverse_cons, List.reverse_append]
  rw [hr, List.dropWhile_cons, h2]
  simp only [Bool.false_eq_true, if_false]
  rw [← hr, List.reverse_reverse]

theorem find_bracket (ss : Str) (h2 : ']' ∉ ss)
    (h3 : ∀ c ∈ ss, ([';'] : Str).contains c = false) :
    find_char_or_comment ('[' :: (ss ++ [']'])) ']' [';'] true = some (1 + ss.length) := by
  rw [find_char_or_comment, findAux, if_neg (by decide), if_neg (by decide)]
  exact findAux_append_target ']' [';'] ss [] 1 (Char.isWhitespace '[') h2 h3

theorem parse_line_bracket (ss : Str) (h1 : ss ≠ []) (h2 : ']' ∉ ss)
    (h3 : ∀ c ∈ ss, ([';'] : Str).contains c = false)
    (st : ParseState IniReader) (ln : Nat) :
    parse_line ('[' :: (ss ++ [']'])) st iniHandler ParseOptions.default ln
      = ({ st with
            sec := ss
            prev_name := []
            hstate := st.hstate.handle ss [] [] }, none) := by
  rw [parse_line]
  have hbom : (decide ((some '[' : Option Char) = some '﻿')) = false := by decide
  have hc1 : (decide ((some '[' : Option Char) = some ';')) = false := by decide
  have hc2 : (decide ((some '[' : Option Char) = some '#')) = false := by decide
  simp only [ParseOptions.default, List.head?_cons, hbom, Bool.and_false, Bool.false_eq_true,
    if_false, trim_bracket, List.isEmpty_cons, List.any_cons, List.any_nil, hc1, hc2,
    Bool.or_false, Bool.false_and, Bool.false_or]
  rw [if_pos trivial]
  rw [find_bracket ss h2 h3]
  have hgt : 1 + ss.length > 1 := by
    have := List.length_pos.mpr h1
    omega
  have hidx : 1 + ss.length - 1 = ss.length := by omega
  simp only [hgt, if_true, List.drop_succ_cons, List.drop_zero, hidx, List.take_left,
    iniHandler, Option.map_none']

theorem handle_fresh_section (ss : Str) (h1 : ss ≠ []) :
    iniReader0.handle ss [] [] = { values := [], sections := [ss], error := none } := by
  have hne : ss.isEmpty = false := by
    cases ss with
    | nil => exact absurd rfl h1
    | cons c cs => rfl
  rw [IniReader.handle, hne]
  simp [iniReader0, insertSet]

/-- C3, amended: the section set stores the section name verbatim in its
original case: for any parsable single-section input, sectionNames returns
exactly that name as written (sorted, deduplicated) and has_section
succeeds exactly on the verbatim spelling (case-sensitive match). -/
theorem c3_sections_original_case (ss : Str) (h1 : ss ≠ []) (h2 : ']' ∉ ss)
    (h3 : ∀ c ∈ ss, ([';'] : Str).contains c = false) (h4 : ss.length + 2 ≤ 200) :
    ((ini_parse_lines_with_options ['[' :: (ss ++ [']'])] iniReader0 iniHandler
        ParseOptions.default).1.hstate).sectionNames = [ss] ∧
    ∀ s : Str, ((ini_parse_lines_with_options ['[' :: (ss ++ [']'])] iniReader0 iniHandler
        ParseOptions.default).1.hstate).has_section s = true ↔ s = ss := by
  have hreader : (ini_parse_lines_with_options ['[' :: (ss ++ [']'])] iniReader0 iniHandler
      ParseOptions.default).1.hstate = { values := [], sections := [ss], error := none } := by
    have hlen : ¬(('[' :: (ss ++ [']'])).length > ParseOptions.default.max_line) := by
      simp only [ParseOptions.default, List.length_cons, List.length_append, List.length_nil]
      omega
    rw [ini_parse_lines_with_options]
    simp only [ini_parse_lines_aux]
    rw [if_neg hlen]
    simp only [parse_line_bracket ss h1 h2 h3, handle_fresh_section ss h1]
  constructor
  · rw [hreader, IniReader.sectionNames]
    simp [sortStrs, insSorted]
  · intro s
    rw [hreader, IniReader.has_section]
    simp only [List.contains_cons, List.contains_nil, Bool.or_false, beq_iff_eq]

/-- Witness for c3_sections_original_case: parsing the single header line
with section name Sect yields sectionNames equal to the original-case
Sect. -/
theorem c3_witness :
    ((ini_parse_lines_with_options ['[' :: (str "Sect" ++ [']'])] iniReader0 iniHandler
        ParseOptions.default).1.hstate).sectionNames = [str "Sect"] :=
  (c3_sections_original_case (str "Sect") (by decide) (by decide) (by decide) (by decide)).1

theorem processAll_long (handler : Handler σ) (options : ParseOptions)
    (line : Str) (rest : List Str) (st : ParseState σ) (ln : Nat)
    (hlen : line.length > options.max_line) :
    processAll handler options (line :: rest) st ln
      = ((processAll handler options rest st (ln + 1)).1,
         some (IniParseError.ParseError (ln + 1) "Line too long")
           :: (processAll handler options rest st (ln + 1)).2) := by
  rw [processAll.eq_def]
  simp [hlen]

theorem processAll_step (handler : Handler σ) (options : ParseOptions)
    (line : Str) (rest : List Str) (st : ParseState σ) (ln : Nat)
    (hlen : ¬(line.length > options.max_line)) :
    processAll handler options (line :: rest) st ln
      = ((processAll handler options rest
            (parse_line line st handler options (ln + 1)).1 (ln + 1)).1,
         (parse_line line st handler options (ln + 1)).2
           :: (processAll handler options rest
                (parse_line line st handler options (ln + 1)).1 (ln + 1)).2) := by
  rw [processAll.eq_def]
  simp [hlen]

theorem aux_cons_long (handler : Handler σ) (options : ParseOptions)
    (line : Str) (rest : List Str) (st : ParseState σ) (ln : Nat)
    (fe : Option IniParseError) (hlen : line.length > options.max_line)
    (hstop : options.stop_on_first_error = false) :
    ini_parse_lines_aux handler options (line :: rest) st ln fe
      = ini_parse_lines_aux handler options rest st (ln + 1)
          (match fe with
           | some e => some e
           | none => some (IniParseError.ParseError (ln + 1) "Line too long")) := by
  rw [ini_parse_lines_aux.eq_def]
  simp [hlen, hstop]

theorem aux_cons_long_strict (handler : Handler σ) (options : ParseOptions)
    (line : Str) (rest : List Str) (st : ParseState σ) (ln : Nat)
    (fe : Option IniParseError) (hlen : line.length > options.max_line)
    (hstop : options.stop_on_first_error = true) :
    ini_parse_lines_aux handler options (line :: rest) st ln fe
      = (st, Except.error (IniParseError.ParseError (ln + 1) "Line too long")) := by
  rw [ini_parse_lines_aux.eq_def]
  simp [hlen, hstop]

theorem aux_cons_ok (handler : Handler σ) (options : ParseOptions)
    (line : Str) (rest : List Str) (st : ParseState σ) (ln : Nat)
    (fe : Option IniParseError) (hlen : ¬(line.length > options.max_line))
    (hp : (parse_line line st handler options (ln + 1)).2 = none) :
    ini_parse_lines_aux handler options (line :: rest) st ln fe
      = ini_parse_lines_aux handler options rest
          (parse_line line st handler options (ln + 1)).1 (ln + 1) fe := by
  rw [ini_parse_lines_aux.eq_def]
  simp [hlen, hp]

theorem aux_cons_err (handler : Handler σ) (options : ParseOptions)
    (line : Str) (rest : List Str) (st : ParseState σ) (ln : Nat)
    (fe : Option IniParseError) (e : IniParseError)
    (hlen : ¬(line.length > options.max_line))
    (hp : (parse_line line st handler options (ln + 1)).2 = some e)
    (hstop : options.stop_on_first_error = false) :
    ini_parse_lines_aux handler options (line :: rest) st ln fe
      = ini_parse_lines_aux handler options rest
          (parse_line line st handler options (ln + 1)).1 (ln + 1)
          (match fe with
           | some e2 => some e2
           | none => some e) := by
  rw [ini_parse_lines_aux.eq_def]
  simp [hlen, hp, hstop]

theorem aux_cons_err_strict (handler : Handler σ) (options : ParseOptions)
    (line : Str) (rest : List Str) (st : ParseState σ) (ln : Nat)
    (fe : Option IniParseError) (e : IniParseError)
    (hlen : ¬(line.length > options.max_line))
    (hp : (parse_line line st handler options (ln + 1)).2 = some e)
    (hstop : options.stop_on_first_error = true) :
    ini_parse_lines_aux handler options (line :: rest) st ln fe
      = ((parse_line line st handler options (ln + 1)).1, Except.error e) := by
  rw [ini_parse_lines_aux.eq_def]
  simp [hlen, hp, hstop]

theorem aux_lenient (handler : Handler σ) (options : ParseOptions)
    (hstop : options.stop_on_first_error = false) :
    ∀ (lines : List Str) (st : ParseState σ) (ln : Nat) (fe : Option IniParseError),
      ini_parse_lines_aux handler options lines st ln fe
        = ((processAll handler options lines st ln).1,
           match (match fe with
                  | some e => some e
                  | none => firstSome (processAll handler options lines st ln).2) with
           | some e => Except.error e
           | none => Except.ok ()) := by
  intro lines
  induction lines with
  | nil =>
    intro st ln fe
    cases fe <;> simp [ini_parse_lines_aux, processAll, firstSome]
  | cons line rest ih =>
    intro st ln fe
    by_cases hlen : line.length > options.max_line
    · rw [aux_cons_long handler options line rest st ln fe hlen hstop, ih,
        processAll_long handler options line rest st ln hlen]
      cases fe <;> simp [firstSome]
    · cases hp : (parse_line line st handler options (ln + 1)).2 with
      | none =>
        rw [aux_cons_ok handler options line rest st ln fe hlen hp, ih,
          processAll_step handler options line rest st ln hlen, hp]
        cases fe <;> simp [firstSome]
      | some e =>
        rw [aux_cons_err handler options line rest st ln fe e hlen hp hstop, ih,
          processAll_step handler options line rest st ln hlen, hp]
        cases fe <;> simp [firstSome]

theorem aux_strict_no_error (handler : Handler σ) (options : ParseOptions)
    (hstop : options.stop_on_first_error = true) :
    ∀ (lines : List Str) (st : ParseState σ) (ln : Nat),
      firstErrAt (processAll handler options lines st ln).2 = none →
      ini_parse_lines_aux handler options lines st ln none
        = ((processAll handler options lines st ln).1, Except.ok ()) := by
  intro lines
  induction lines with
  | nil => intro st ln _; simp [ini_parse_lines_aux, processAll]
  | cons line rest ih =>
    intro st ln hfe
    by_cases hlen : line.length > options.max_line
    · rw [processAll_long handler options line rest st ln hlen] at hfe
      simp [firstErrAt] at hfe
    · rw [processAll_step handler options line rest st ln hlen] at hfe ⊢
      cases hp : (parse_line line st handler options (ln + 1)).2 with
      | none =>
        rw [hp] at hfe
        simp only [firstErrAt] at hfe ⊢
        rcases hf2 : firstErrAt (processAll handler options rest
            (parse_line line st handler options (ln + 1)).1 (ln + 1)).2 with _ | p
        · rw [aux_cons_ok handler options line rest st ln none hlen hp]
          exact ih _ _ hf2
        · rw [hf2] at hfe
          simp at hfe
      | some e =>
        rw [hp] at hfe
        simp [firstErrAt] at hfe

theorem aux_strict_error (handler : Handler σ) (options : ParseOptions)
    (hstop : options.stop_on_first_error = true) :
    ∀ (lines : List Str) (st : ParseState σ) (ln : Nat) (k : Nat) (e : IniParseError),
      firstErrAt (processAll handler options lines st ln).2 = some (k, e) →
      ini_parse_lines_aux handler options lines st ln none
        = ((processAll handler options (lines.take (k + 1)) st ln).1, Except.error e) := by
  intro lines
  induction lines with
  | nil => intro st ln k e hfe; simp [processAll, firstErrAt] at hfe
  | cons line rest ih =>
    intro st ln k e hfe
    by_cases hlen : line.length > options.max_line
    · rw [processAll_long handler options line rest st ln hlen] at hfe
      simp only [firstErrAt, Option.some.injEq, Prod.mk.injEq] at hfe
      obtain ⟨hk, he⟩ := hfe
      rw [aux_cons_long_strict handler options line rest st ln none hlen hstop]
      rw [← hk, List.take_succ_cons, List.take_zero,
        processAll_long handler options line [] st ln hlen]
      simp [processAll, he]
    · rw [processAll_step handler options line rest st ln hlen] at hfe
      cases hp : (parse_line line st handler options (ln + 1)).2 with
      | none =>
        rw [hp] at hfe
        simp only [firstErrAt] at hfe
        rcases hf2 : firstErrAt (processAll handler options rest
            (parse_line line st handler options (ln + 1)).1 (ln + 1)).2 with _ | p
        · rw [hf2] at hfe
          simp at hfe
        · rw [hf2] at hfe
          obtain ⟨q, r⟩ := p
          simp only [Option.some.injEq, Prod.mk.injEq] at hfe
          obtain ⟨hk, he⟩ := hfe
          subst he
          rw [aux_cons_ok handler options line rest st ln none hlen hp]
          rw [← hk, List.take_succ_cons,
            processAll_step handler options line (rest.take (q + 1)) st ln hlen]
          exact ih _ _ q r hf2
      | some e2 =>
        rw [hp] at hfe
        simp only [firstErrAt, Option.some.injEq, Prod.mk.injEq] at hfe
        obtain ⟨hk, he⟩ := hfe
        rw [aux_cons_err_strict handler options line rest st ln none e2 hlen hp hstop]
        rw [← hk, List.take_succ_cons, List.take_zero,
          processAll_step handler options line [] st ln hlen]
        simp [processAll, he]

/-- C4: the error policy of the driver. When stop_on_first_error is false
the driver processes every line (its final state, hence the event stream
the consumer received, equals that of the reference model processAll that
never aborts) and returns the first recorded error if any, otherwise
success. When stop_on_first_error is true and the first per-line error
occurs at index k, the driver stops right after line k with exactly that
error, having processed only lines 0 through k; with no error it
processes everything and succeeds. -/
theorem c4_error_policy (handler : Handler σ) (options : ParseOptions)
    (lines : List Str) (st : ParseState σ) (ln : Nat) :
    (options.stop_on_first_error = false →
      ini_parse_lines_aux handler options lines st ln none
        = ((processAll handler options lines st ln).1,
           match firstSome (processAll handler options lines st ln).2 with
           | some e => Except.error e
           | none => Except.ok ())) ∧
    (options.stop_on_first_error = true →
      (firstErrAt (processAll handler options lines st ln).2 = none →
        ini_parse_lines_aux handler options lines st ln none
          = ((processAll handler options lines st ln).1, Except.ok ())) ∧
      (∀ k e, firstErrAt (processAll handler options lines st ln).2 = some (k, e) →
        ini_parse_lines_aux handler options lines st ln none
          = ((processAll handler options (lines.take (k + 1)) st ln).1,
             Except.error e))) := by
  refine ⟨fun hstop => ?_, fun hstop => ⟨fun hfe => ?_, fun k e hfe => ?_⟩⟩
  · exact aux_lenient handler options hstop lines st ln none
  · exact aux_strict_no_error handler options hstop lines st ln hfe
  · exact aux_strict_error handler options hstop lines st ln k e hfe

/-- Witness for c4_error_policy: under the default (lenient) options on a
one-line input, the driver result equals the reference model's state with
success. -/
theorem c4_witness :
    ini_parse_lines_aux iniHandler ParseOptions.default [str "a=1"]
      ⟨[], [], iniReader0⟩ 0 none
      = ((processAll iniHandler ParseOptions.default [str "a=1"]
          ⟨[], [], iniReader0⟩ 0).1, Except.ok ()) := by
  have h := (c4_error_policy iniHandler ParseOptions.default [str "a=1"]
    ⟨[], [], iniReader0⟩ 0).1 rfl
  rw [h]
  rfl

theorem findAux_spec (target : Char) (prefixes : Str) :
    ∀ (l : Str) (i : Nat) (ws : Bool) (j : Nat),
      findAux target prefixes true l i ws = some j →
      ∃ k, j = i + k ∧
        (l[k]? = some target ∨
         ∃ c, l[k]? = some c ∧ prefixes.contains c = true ∧
           ((k = 0 ∧ ws = true) ∨
            ∃ p, 0 < k ∧ l[k - 1]? = some p ∧ p.isWhitespace = true)) := by
  intro l
  induction l with
  | nil => intro i ws j h; simp [findAux] at h
  | cons c rest ih =>
    intro i ws j h
    rw [findAux] at h
    by_cases hct : c = target
    · rw [if_pos hct] at h
      have hj : j = i := by simpa using h.symm
      exact ⟨0, by omega, Or.inl (by simp [hct])⟩
    · rw [if_neg hct] at h
      by_cases hcm : (true && ws && prefixes.contains c) = true
      · rw [if_pos hcm] at h
        have hj : j = i := by simpa using h.symm
        have hws : ws = true ∧ prefixes.contains c = true := by
          simpa using hcm
        exact ⟨0, by omega, Or.inr ⟨c, by simp, hws.2, Or.inl ⟨rfl, hws.1⟩⟩⟩
      · rw [if_neg hcm] at h
        obtain ⟨k, hk, hprop⟩ := ih (i + 1) c.isWhitespace j h
        refine ⟨k + 1, by omega, ?_⟩
        rcases hprop with htgt | ⟨c2, hc2, hcont, hpred⟩
        · left; simpa using htgt
        · right
          refine ⟨c2, by simpa using hc2, hcont, Or.inr ?_⟩
          rcases hpred with ⟨hk0, hws⟩ | ⟨p, hkpos, hp, hpw⟩
          · subst hk0
            exact ⟨c, by omega, by simp, hws⟩
          · refine ⟨p, by omega, ?_, hpw⟩
            rw [show k + 1 - 1 = k by omega, show k = (k - 1) + 1 by omega,
              List.getElem?_cons_succ]
            exact hp

theorem find_spec (s : Str) (target : Char) (prefixes : Str) (i : Nat)
    (h : find_char_or_comment s target prefixes true = some i) :
    s[i]? = some target ∨
    ∃ c p, s[i]? = some c ∧ prefixes.contains c = true ∧ 0 < i ∧
      s[i - 1]? = some p ∧ p.isWhitespace = true := by
  obtain ⟨k, hk, hprop⟩ := findAux_spec target prefixes s 0 false i h
  have hik : i = k := by omega
  subst hik
  rcases hprop with h1 | ⟨c, hc, hcont, hpred⟩
  · exact Or.inl h1
  · rcases hpred with ⟨_, hf⟩ | ⟨p, hkpos, hp, hpw⟩
    · simp at hf
    · exact Or.inr ⟨c, p, hc, hcont, hkpos, hp, hpw⟩

theorem removeAux_spec (prefixes s : Str) :
    ∀ (l : Str) (i : Nat) (ws : Bool), l = s.drop i →
      removeAux prefixes s l i ws = trim s ∨
      ∃ k c, s[i + k]? = some c ∧ prefixes.contains c = true ∧
        ((k = 0 ∧ ws = true) ∨
         ∃ p, 0 < k ∧ s[i + k - 1]? = some p ∧ p.isWhitespace = true) ∧
        removeAux prefixes s l i ws = trim (s.take (i + k)) := by
  intro l
  induction l with
  | nil => intro i ws _; left; rfl
  | cons c rest ih =>
    intro i ws hdrop
    have hci : s[i]? = some c := by
      have h0 := List.getElem?_drop s i 0
      rw [← hdrop] at h0
      simpa using h0.symm
    have hrest : rest = s.drop (i + 1) := by
      have h1 : (s.drop i).drop 1 = s.drop (i + 1) := List.drop_drop 1 i s
      rw [← hdrop] at h1
      simpa using h1
    rw [removeAux]
    by_cases hcm : (ws && prefixes.contains c) = true
    · rw [if_pos hcm]
      have hsplit : ws = true ∧ prefixes.contains c = true := by simpa using hcm
      right
      exact ⟨0, c, by simpa using hci, hsplit.2, Or.inl ⟨rfl, hsplit.1⟩,
        by rw [Nat.add_zero]⟩
    · rw [if_neg hcm]
      rcases ih (i + 1) c.isWhitespace hrest with h1 | ⟨k, c2, hc2, hcont, hpred, hres⟩
      · exact Or.inl h1
      · right
        refine ⟨k + 1, c2, ?_, hcont, ?_, ?_⟩
        · rw [show i + (k + 1) = (i + 1) + k by omega]
          exact hc2
        · rcases hpred with ⟨hk0, hws⟩ | ⟨p, hkpos, hp, hpw⟩
          · subst hk0
            exact Or.inr ⟨c, by omega, by rw [show i + (0 + 1) - 1 = i by omega]; exact hci, hws⟩
          · exact Or.inr ⟨p, by omega,
              by rw [show i + (k + 1) - 1 = (i + 1) + k - 1 by omega]; exact hp, hpw⟩
        · rw [show i + (k + 1) = (i + 1) + k by omega]
          exact hres

theorem remove_spec (s prefixes : Str) :
    remove_inline_comment s prefixes = trim s ∨
    ∃ k c p, s[k]? = some c ∧ prefixes.contains c = true ∧ 0 < k ∧
      s[k - 1]? = some p ∧ p.isWhitespace = true ∧
      remove_inline_comment s prefixes = trim (s.take k) := by
  rcases removeAux_spec prefixes s s 0 false (by simp) with h | ⟨k, c, hc, hcont, hpred, hres⟩
  · exact Or.inl h
  · rcases hpred with ⟨_, hf⟩ | ⟨p, hkpos, hp, hpw⟩
    · simp at hf
    · exact Or.inr ⟨k, c, p, by simpa using hc, hcont, hkpos, by simpa using hp, hpw,
        by simpa using hres⟩

/-- C8: a comment-start character is honored only when the immediately
preceding character is whitespace, identically in the separator and
section-bracket searches (both use find_char_or_comment, which returns a
non-target position only at a prefix character preceded by a whitespace
character) and in trailing-comment removal (remove_inline_comment only
truncates at such a position); concretely, the line test;3 = 345 ; c with
the default prefixes yields key test;3 and value 345. -/
theorem c8_comment_requires_whitespace :
    (∀ (s : Str) (target : Char) (prefixes : Str) (i : Nat),
      find_char_or_comment s target prefixes true = some i →
      s[i]? = some target ∨
      ∃ c p, s[i]? = some c ∧ prefixes.contains c = true ∧ 0 < i ∧
        s[i - 1]? = some p ∧ p.isWhitespace = true) ∧
    (∀ (s prefixes : Str),
      remove_inline_comment s prefixes = trim s ∨
      ∃ k c p, s[k]? = some c ∧ prefixes.contains c = true ∧ 0 < k ∧
        s[k - 1]? = some p ∧ p.isWhitespace = true ∧
        remove_inline_comment s prefixes = trim (s.take k)) ∧
    (from_string (str "test;3 = 345 ; c")).1.get (str "") (str "test;3") [] = str "345" :=
  ⟨find_spec, remove_spec, rfl⟩

/-- Witness for c8_comment_requires_whitespace: on the concrete string of
the characters a, space, semicolon, b, searching for an equals sign stops
at position 2, and the disjunction certifies the semicolon there is
preceded by whitespace. -/
theorem c8_witness :
    (str "a ;b")[2]? = some '=' ∨
    ∃ c p, (str "a ;b")[2]? = some c ∧ ([';'] : Str).contains c = true ∧ 0 < 2 ∧
      (str "a ;b")[2 - 1]? = some p ∧ p.isWhitespace = true :=
  c8_comment_requires_whitespace.1 (str "a ;b") '=' [';'] 2 (by rfl)

end Inih
